import Mathlib

/-!
Verification of the csvdrop repository: a shallow embedding of its two source
files and proofs about the claims of its specification.

The repository has two components:

* `netlify/functions/process-csv.js` — a serverless handler that parses
  uploaded CSV files (`Papa.parse` with `header:true, skipEmptyLines:true`),
  concatenates all rows, removes blank rows, removes duplicate rows (keyed by
  `JSON.stringify(row)`), and serializes the result with `json2csv`.

* the front-end script — parses one CSV into `csvData`, renders an editable
  table with a per-column "modify" checkbox (`toggleModification`), writes
  edits through to `csvData` on every input event, and unparses `csvData`
  with `Papa.unparse` on download.

Rows are JavaScript objects produced by Papa's header mode: an insertion-ordered
mapping from column name to string cell value.  We embed a row as an ordered
association list `List (String × String)`.
-/

namespace CsvDrop

/-- A Row Record: one parsed CSV data row, i.e. a JavaScript object mapping
column names to string cell values in insertion (= header) order.  Papa parse
is invoked without `dynamicTyping`, so every cell value is a string. -/
abbrev RowRecord := List (String × String)

/-- The column names of a record, in insertion order (`Object.keys(row)`). -/
def keys (r : RowRecord) : List String := r.map Prod.fst

/-- JavaScript property read `row[c]`: the value stored at the first pair whose
key is `c`, or `none` when the property is absent (JS `undefined`).  Keys of a
record built by Papa's header mode are pairwise distinct, so "first pair"
agrees with the unique pair. -/
def lookupCol (c : String) : RowRecord → Option String
  | [] => none
  | p :: rest => if p.1 = c then some p.2 else lookupCol c rest

/-! ## The merge engine (`netlify/functions/process-csv.js`) -/

/-- The ASCII whitespace characters recognised by JavaScript's `String.trim`
(the full JS definition also covers Unicode space separators, which we do not
model). -/
def isJsSpace (c : Char) : Bool :=
  c == ' ' || c == '\t' || c == '\n' || c == '\r' || c == '\x0b' || c == '\x0c'

/-- JavaScript `value.trim()`: strip leading and trailing whitespace. -/
def jsTrim (s : String) : String :=
  String.mk (((s.data.dropWhile (fun c => isJsSpace c)).reverse.dropWhile
    (fun c => isJsSpace c)).reverse)

/-- The blank-row filter predicate of the handler:
`Object.values(row).some((value) => value !== null && value !== undefined &&
String(value).trim() !== '')`.  All cell values produced by Papa's header mode
are strings, so the `null`/`undefined` guards never fire in our embedding. -/
def keepRow (row : RowRecord) : Bool :=
  (row.map Prod.snd).any (fun value => decide (jsTrim value ≠ ""))

/-- The duplicate filter of the handler.  The source iterates over `allData`
keeping a `Set` `seen` of `JSON.stringify(row)` keys and pushing a row onto
`uniqueData` whenever its key is new.  `JSON.stringify` on a string-valued
object is injective and equal objects stringify equally (stringification
follows the object's own key insertion order), so membership of the key in
`seen` coincides with membership of the record itself; we therefore keep the
set of seen records in place of the set of their JSON strings. -/
def dedupRows (allData : List RowRecord) : List RowRecord :=
  (allData.foldl
    (fun acc row => if row ∈ acc.1 then acc else (row :: acc.1, acc.2 ++ [row]))
    (([], []) : List RowRecord × List RowRecord)).2

/-- The row-level merge pipeline of the handler: concatenate all parsed
collections (`allData = allData.concat(results.data)` per file), drop blank
rows, drop duplicate rows. -/
def mergeRows (colls : List (List RowRecord)) : List RowRecord :=
  dedupRows ((colls.flatten).filter keepRow)

/-- One uploaded file, after the `fs.readFileSync` + `Papa.parse` step of the
handler's loop: `some rows` is the `results.data` of a file whose read
succeeded; `none` models a file whose `fs.readFileSync` throws.  (`Papa.parse`
itself never throws; it returns whatever rows it could produce.) -/
abbrev FileInput := Option (List RowRecord)

/-- The handler's read loop inside the `try` block: files are processed in
order and the first `fs.readFileSync` throw aborts the whole loop. -/
def readAll : List FileInput → Except Unit (List (List RowRecord))
  | [] => .ok []
  | none :: _ => .error ()
  | some rows :: rest => (readAll rest).map (fun colls => rows :: colls)

/-! ### json2csv

The handler serializes with `new Parser().parse(uniqueData)` (json2csv with
default options).  json2csv derives the field list from the keys of the first
record (`Object.keys(processedData[0])`), renders every present string value
wrapped in double quotes with embedded quotes doubled, renders a missing value
as an empty cell, joins cells with `,` and lines with `\n`, and throws when
the data array is empty and no `fields` option was given. -/

/-- json2csv's default field derivation: the keys of the first record. -/
def json2csvFields : List RowRecord → List String
  | [] => []
  | r :: _ => keys r

/-- json2csv escaping: a double quote inside a value becomes `""`. -/
def json2csvEscape : List Char → List Char
  | [] => []
  | c :: cs => if c = '"' then '"' :: '"' :: json2csvEscape cs else c :: json2csvEscape cs

/-- A present string value, rendered quoted. -/
def json2csvQuote (s : String) : String :=
  "\"" ++ String.mk (json2csvEscape s.data) ++ "\""

/-- One output cell: a missing value (JS `undefined`) renders as an empty
cell, a present value renders quoted. -/
def json2csvCell : Option String → String
  | none => ""
  | some s => json2csvQuote s

/-- One output line for a record: the record's value at each derived field,
in field order.  A field absent from the record yields an empty cell, and no
column outside the field list is consulted. -/
def json2csvLine (fields : List String) (r : RowRecord) : String :=
  String.intercalate "," (fields.map (fun c => json2csvCell (lookupCol c r)))

/-- The full json2csv output: quoted header line followed by one line per
record, joined by `\n`. -/
def json2csvRender (rows : List RowRecord) : String :=
  String.intercalate "\n"
    (String.intercalate "," ((json2csvFields rows).map json2csvQuote)
      :: rows.map (fun r => json2csvLine (json2csvFields rows) r))

/-- `new Parser().parse(rows)`: throws (`Data should not be empty ...`) when
`rows` is empty, otherwise returns the CSV text. -/
def json2csvParse (rows : List RowRecord) : Except Unit String :=
  if rows.isEmpty then .error () else .ok (json2csvRender rows)

/-! ### The handler -/

/-- The HTTP-style response of the serverless function (headers omitted:
no claim is about them). -/
structure HttpResponse where
  statusCode : Nat
  body : String
deriving DecidableEq

/-- The `process-csv` handler, embedded after multipart decoding: `files` is
the `fileArray` extracted from the form, each element being the read+parse
outcome of one uploaded file.  Mirrors the source's control flow: method
check (405), empty `fileArray` check (400), then a `try` block in which a
read failure or the json2csv throw on an empty row set become the generic
500 response, and success yields the merged CSV with status 200. -/
def handler (method : String) (files : List FileInput) : HttpResponse :=
  if method ≠ "POST" then ⟨405, "Method Not Allowed"⟩
  else if files.isEmpty then ⟨400, "No files uploaded"⟩
  else
    match readAll files with
    | .error _ => ⟨500, "Server error processing CSV files"⟩
    | .ok colls =>
      match json2csvParse (mergeRows colls) with
      | .error _ => ⟨500, "Server error processing CSV files"⟩
      | .ok csv => ⟨200, csv⟩

/-- The front-end guard on the "combine" button: it refuses to submit the
request when fewer than two files are selected
(`if (!files || files.length < 2) alert(...)`). -/
def combineRejects (fileCount : Nat) : Bool :=
  decide (fileCount < 2)

/-- Specification-side duplicate filter, written from the claim's words: walk
the concatenated, blank-filtered sequence and drop a record precisely when
some earlier record of the sequence equals it; `earlier` accumulates the
records already passed (kept or dropped). -/
def keepFirsts (earlier : List RowRecord) : List RowRecord → List RowRecord
  | [] => []
  | row :: rest =>
    if row ∈ earlier then keepFirsts (earlier ++ [row]) rest
    else row :: keepFirsts (earlier ++ [row]) rest

/-- A record together with its key-order permutation: the same full set of
(column, value) pairs, presented in a different key order. -/
def permRecordA : RowRecord := [("a", "1"), ("b", "2")]

/-- See `permRecordA`. -/
def permRecordB : RowRecord := [("b", "2"), ("a", "1")]

/-! ## The front-end Row Store (`csvData`) and its edit protocol -/

/-- JavaScript property write `row[c] = v`: when the property exists its value
is overwritten in place (key order preserved), otherwise the property is
appended.  Records built by Papa's header mode have pairwise-distinct keys,
so replacing every pair whose key is `c` coincides with updating the unique
such property. -/
def setKey (r : RowRecord) (c v : String) : RowRecord :=
  if c ∈ keys r then r.map (fun p => if p.1 = c then (p.1, v) else p)
  else r ++ [(c, v)]

/-- The write-through of the input listener:
`csvData[ri][column] = this.value`.  An out-of-range row index (which in the
UI never occurs: the index comes from the cell's own `dataset.rowIndex`)
leaves the store unchanged. -/
def setCell (d : List RowRecord) (ri : Nat) (c v : String) : List RowRecord :=
  match d.get? ri with
  | some r => d.set ri (setKey r c v)
  | none => d

/-- Reading a cell of the store: `csvData[ri][c]`. -/
def getCell (d : List RowRecord) (ri : Nat) (c : String) : Option String :=
  (d.get? ri).bind (fun r => lookupCol c r)

/-- A sequence of input events, each writing through one
`(rowIndex, column, value)` edit, applied in order. -/
def applyEdits (d : List RowRecord) (es : List (Nat × String × String)) :
    List RowRecord :=
  es.foldl (fun acc e => setCell acc e.1 e.2.1 e.2.2) d

/-- The last value written to the slot `(ri, c)` by the edit sequence `es`,
starting from `init` (the value read before any edit). -/
def lastWrite (ri : Nat) (c : String) (init : Option String)
    (es : List (Nat × String × String)) : Option String :=
  es.foldl (fun acc e => if e.1 = ri ∧ e.2.1 = c then some e.2.2 else acc) init

/-! ## The edit-toggle UI (`toggleModification`) -/

/-- `csvData[rowIndex][col]` as read by `toggleModification` to seed an input
(enable) or to re-render plain text (disable). -/
def cellValue (d : List RowRecord) (ri : Nat) (c : String) : String :=
  ((d.get? ri).bind (fun r => lookupCol c r)).getD ""

/-- The front-end state touched by `toggleModification`: the Row Store
`csvData`, the set of columns whose modify checkbox is checked (the columns
rendered as input fields), and the text each table cell currently displays
(`td.textContent` or `input.value`), kept row by row in table shape. -/
structure UIState where
  data : List RowRecord
  editing : List String
  display : List RowRecord

/-- The cell loop of `toggleModification`: every cell of column `col` gets
its displayed text replaced by the store's current value for its row — as an
input's seeded `value` when enabling, as plain `textContent` when disabling;
cells of other columns are untouched.  `ri` counts the row index. -/
def updateDisplay (data : List RowRecord) (col : String) :
    Nat → List RowRecord → List RowRecord
  | _, [] => []
  | ri, row :: rest =>
    row.map (fun p => if p.1 = col then (p.1, cellValue data ri col) else p)
      :: updateDisplay data col (ri + 1) rest

/-- `toggleModification(checkbox)` for the checkbox of column `col`, whose
state is now `checked`: the set of editing columns follows the checkbox, the
displayed text of column `col` is refreshed from the store in both
directions, and `csvData` itself is never written. -/
def toggleModification (s : UIState) (col : String) (checked : Bool) : UIState :=
  { data := s.data
    editing :=
      if checked then (if col ∈ s.editing then s.editing else col :: s.editing)
      else s.editing.erase col
    display := updateDisplay s.data col 0 s.display }

/-- The displayed texts of one column, top to bottom (`none` where a row has
no cell of that column). -/
def columnDisplay (s : UIState) (c : String) : List (Option String) :=
  s.display.map (fun row => lookupCol c row)

/-- A small concrete front-end state used to instantiate the toggle
theorem. -/
def uiStateExample : UIState :=
  ⟨[[("a", "1"), ("b", "2")]], ["b"], [[("a", "1"), ("b", "2")]]⟩

/-! ## Papa Parse and Papa.unparse

The front-end parses with `Papa.parse(file, { header: true, dynamicTyping:
false, skipEmptyLines: true })` and serializes with `Papa.unparse(csvData)`.
These belong to the external Papa Parse library; we model its CSV grammar at
its default configuration: delimiter `,` (Papa's delimiter auto-detection
resolves to the comma for the comma-separated texts considered here), quote
char `"` escaped by doubling, row breaks `\r\n`, `\n` or `\r` accepted on
parse, `\r\n` emitted between records on unparse, and no BOM handling. -/

/-- Read the body of a quoted field, `acc` holding the content read so far: a
doubled quote is an escaped quote, a lone quote closes the field, and end of
input inside a quote is a parse failure. -/
def readQuoted (acc : List Char) : List Char → Option (List Char × List Char)
  | [] => none
  | c :: cs =>
    if c = '"' then
      match cs with
      | [] => some (acc, [])
      | c2 :: cs2 =>
        if c2 = '"' then readQuoted (acc ++ ['"']) cs2 else some (acc, cs)
    else readQuoted (acc ++ [c]) cs

/-- Read an unquoted field: everything up to the next delimiter or row
break. -/
def readUnquoted (acc : List Char) : List Char → List Char × List Char
  | [] => (acc, [])
  | c :: cs =>
    if c = ',' ∨ c = '\n' ∨ c = '\r' then (acc, c :: cs)
    else readUnquoted (acc ++ [c]) cs

/-- Read one field: a field opening with a quote char is quoted, any other is
unquoted. -/
def parseField : List Char → Option (List Char × List Char)
  | [] => some ([], [])
  | c :: cs => if c = '"' then readQuoted [] cs else some (readUnquoted [] (c :: cs))

/-- Read one record: comma-separated fields terminated by a row break
(`\r\n`, `\n` or `\r`) or the end of input.  `fuel` bounds the number of
fields; each recursive step consumes the separating comma, so any fuel of at
least the field count is enough. -/
def parseRecordAux : Nat → List Char → Option (List (List Char) × List Char)
  | 0, _ => none
  | fuel + 1, cs =>
    match parseField cs with
    | none => none
    | some (f, rest) =>
      match rest with
      | [] => some ([f], [])
      | c :: r =>
        if c = ',' then
          match parseRecordAux fuel r with
          | none => none
          | some (fs, r2) => some (f :: fs, r2)
        else if c = '\r' then
          match r with
          | [] => some ([f], [])
          | c2 :: r2 => if c2 = '\n' then some ([f], r2) else some ([f], c2 :: r2)
        else if c = '\n' then some ([f], r)
        else none

/-- Read every record of the text; `fuel` bounds the number of records. -/
def parseTableAux : Nat → List Char → Option (List (List (List Char)))
  | 0, _ => none
  | fuel + 1, cs =>
    if cs.isEmpty then some []
    else
      match parseRecordAux (cs.length + 1) cs with
      | none => none
      | some (fs, rest) =>
        match parseTableAux fuel rest with
        | none => none
        | some rows => some (fs :: rows)

/-- Papa's tokenizer over a whole text: the matrix of raw string cells, or
`none` for text that is not well-formed CSV (e.g. an unterminated quote). -/
def rawTable (s : String) : Option (List (List String)) :=
  (parseTableAux (s.data.length + 1) s.data).map
    (fun rows => rows.map (fun row => row.map (fun f => String.mk f)))

/-- `skipEmptyLines: true`: a row holding exactly one empty cell — an empty
line — is dropped. -/
def skipEmpty (rows : List (List String)) : List (List String) :=
  rows.filter (fun row => decide (row ≠ [""]))

/-- Papa's `header: true` step: the first surviving row is the header and
every later row becomes a record pairing the header names with the row's
cells in order.  `List.zip` truncates at the shorter list: a short row yields
a record missing the trailing columns, as Papa does; the `__parsed_extra`
field Papa adds for over-long rows is not modeled — the round-trip claim is
stated for texts whose data rows all have exactly header length. -/
def toRecords : List (List String) → List RowRecord
  | [] => []
  | header :: dataRows => dataRows.map (fun vals => header.zip vals)

/-- `Papa.parse(text, { header: true, dynamicTyping: false, skipEmptyLines:
true }).data`. -/
def papaParse (s : String) : Option (List RowRecord) :=
  (rawTable s).map (fun rows => toRecords (skipEmpty rows))

/-- Papa.unparse's field-quoting test (`safe`): a field is quoted iff it
contains a quote char, the delimiter or a row-break char
(`Papa.BAD_DELIMITERS`), or starts or ends with a space. -/
def needsQuotes (f : List Char) : Bool :=
  f.any (fun c => c == '"' || c == ',' || c == '\r' || c == '\n')
    || f.head? == some ' ' || f.getLast? == some ' '

/-- Quote escaping on unparse: each `"` of the content becomes `""`. -/
def escapeQuotes : List Char → List Char
  | [] => []
  | c :: cs =>
    if c = '"' then '"' :: '"' :: escapeQuotes cs else c :: escapeQuotes cs

/-- Render one field, quoting it exactly when `needsQuotes` holds. -/
def renderField (f : List Char) : List Char :=
  if needsQuotes f then '"' :: (escapeQuotes f ++ ['"']) else f

/-- Render one record: fields joined by the delimiter. -/
def renderRecord : List (List Char) → List Char
  | [] => []
  | f :: fs =>
    match fs with
    | [] => renderField f
    | _ :: _ => renderField f ++ ',' :: renderRecord fs

/-- Render the whole table: records joined by Papa.unparse's default newline
`\r\n`, with no trailing newline. -/
def renderTable : List (List (List Char)) → List Char
  | [] => []
  | r :: rs =>
    match rs with
    | [] => renderRecord r
    | _ :: _ => renderRecord r ++ '\r' :: '\n' :: renderTable rs

/-- `Papa.unparse(records)` on an array of objects: the fields are the keys
of the first object, and each object contributes one record holding its value
at each field (a missing value renders as an empty field). -/
def papaUnparse (records : List RowRecord) : String :=
  match records with
  | [] => ""
  | r0 :: _ =>
    String.mk (renderTable
      ((keys r0).map (fun c => c.data)
        :: records.map (fun r =>
          (keys r0).map (fun c => ((lookupCol c r).getD "").data))))

/-- The download-button click handler: when no CSV is loaded
(`!csvData || !csvData.length`) it alerts `No CSV loaded to download.` and
returns without building any CSV; otherwise it downloads
`Papa.unparse(csvData)` as `modified.csv`.  The result pairs the store after
the click with the outcome. -/
def downloadClick (d : List RowRecord) : List RowRecord × Except String String :=
  if d.isEmpty then (d, .error "No CSV loaded to download.")
  else (d, .ok (papaUnparse d))

/-- The "valid CSV text" of the round-trip claim: the text tokenizes; after
empty-line skipping a header row and at least one data row remain; the header
is nonempty and free of duplicate column names; and every data row has
exactly header length. -/
def validCsv (s : String) : Bool :=
  match rawTable s with
  | none => false
  | some rows =>
    match skipEmpty rows with
    | [] => false
    | header :: dataRows =>
      !header.isEmpty && decide header.Nodup && !dataRows.isEmpty
        && dataRows.all (fun r => r.length == header.length)

/-! ## Duplicate-filter lemmas -/

lemma dedupRows_loop (l : List RowRecord) :
    ∀ (seen out earlier : List RowRecord), (∀ x, x ∈ seen ↔ x ∈ earlier) →
      (l.foldl
        (fun acc row => if row ∈ acc.1 then acc else (row :: acc.1, acc.2 ++ [row]))
        (seen, out)).2
        = out ++ keepFirsts earlier l := by
  induction l with
  | nil => intro seen out earlier _; simp [keepFirsts]
  | cons r rest ih =>
    intro seen out earlier h
    by_cases hr : r ∈ seen
    · rw [List.foldl_cons, if_pos hr, keepFirsts, if_pos ((h r).mp hr)]
      refine ih seen out (earlier ++ [r]) (fun x => ?_)
      constructor
      · intro hx; exact List.mem_append_left _ ((h x).mp hx)
      · intro hx
        rcases List.mem_append.mp hx with hx | hx
        · exact (h x).mpr hx
        · simp only [List.mem_singleton] at hx; subst hx; exact hr
    · rw [List.foldl_cons, if_neg hr, keepFirsts,
        if_neg (fun hc => hr ((h r).mpr hc))]
      rw [ih (r :: seen) (out ++ [r]) (earlier ++ [r]) (fun x => ?_)]
      · simp
      · simp only [List.mem_cons, List.mem_append, List.mem_singleton, h x]
        tauto

lemma dedupRows_eq_keepFirsts (l : List RowRecord) :
    dedupRows l = keepFirsts [] l := by
  rw [dedupRows, dedupRows_loop l [] [] [] (fun x => Iff.rfl)]
  simp

lemma mem_keepFirsts (l : List RowRecord) :
    ∀ (seen : List RowRecord) (x : RowRecord),
      x ∈ keepFirsts seen l ↔ x ∈ l ∧ x ∉ seen := by
  induction l with
  | nil => intro seen x; simp [keepFirsts]
  | cons r rest ih =>
    intro seen x
    have hm : ∀ (s : List RowRecord) (y : RowRecord), y ∈ s ++ [r] ↔ y ∈ s ∨ y = r := by
      intro s y; simp
    by_cases hr : r ∈ seen
    · rw [keepFirsts, if_pos hr, ih, List.mem_cons]
      constructor
      · rintro ⟨hx, hns⟩
        rw [hm] at hns
        exact ⟨Or.inr hx, fun hs => hns (Or.inl hs)⟩
      · rintro ⟨hx | hx, hns⟩
        · subst hx; exact absurd hr hns
        · refine ⟨hx, ?_⟩
          rw [hm]
          rintro (hs | hs)
          · exact hns hs
          · subst hs; exact hns hr
    · rw [keepFirsts, if_neg hr]
      simp only [List.mem_cons, ih]
      constructor
      · rintro (hx | ⟨hx, hns⟩)
        · subst hx; exact ⟨Or.inl rfl, hr⟩
        · rw [hm] at hns
          exact ⟨Or.inr hx, fun hs => hns (Or.inl hs)⟩
      · rintro ⟨hx | hx, hns⟩
        · exact Or.inl hx
        · by_cases hxr : x = r
          · exact Or.inl hxr
          · refine Or.inr ⟨hx, ?_⟩
            rw [hm]
            rintro (hs | hs)
            · exact hns hs
            · exact hxr hs

lemma mem_dedupRows (l : List RowRecord) (x : RowRecord) :
    x ∈ dedupRows l ↔ x ∈ l := by
  rw [dedupRows_eq_keepFirsts, mem_keepFirsts]
  simp

/-! ## Claim C1: the duplicate filter -/

/-- C1 counterexample.  The claim says a record is dropped whenever some
earlier record has an identical full **set** of (column, value) pairs.
`permRecordB` carries exactly the pairs of the earlier `permRecordA`
(they are permutations of one another), yet the merge keeps both, because the
dedup key `JSON.stringify(row)` follows each object's own key insertion order
and the two records stringify differently. -/
theorem C1_counterexample :
    List.Perm permRecordA permRecordB ∧ permRecordA ≠ permRecordB ∧
      mergeRows [[permRecordA], [permRecordB]] = [permRecordA, permRecordB] :=
  ⟨by decide, by decide, by decide⟩

/-- C1 (amended).  In the merge engine's duplicate filter, a record of the
concatenated, blank-filtered sequence is dropped if and only if some earlier
record of that sequence has the identical **ordered sequence** of
(column, value) pairs — the same columns in the same order with the same
values — and the first occurrence is kept at its position (`dedupRows`
coincides with the specification-side walk `keepFirsts`).  Consequently, for
pairwise-distinct records `r1 r2 r3` that survive the blank filter, merging
`A = [r1, r2]` with `B = [r2, r3]` (with `r2` identical in both, key order
included) yields `[r1, r2, r3]`. -/
theorem C1_theorem :
    (∀ l : List RowRecord, dedupRows l = keepFirsts [] l) ∧
    (∀ r1 r2 r3 : RowRecord, r1 ≠ r2 → r1 ≠ r3 → r2 ≠ r3 →
      keepRow r1 = true → keepRow r2 = true → keepRow r3 = true →
      mergeRows [[r1, r2], [r2, r3]] = [r1, r2, r3]) := by
  refine ⟨dedupRows_eq_keepFirsts, ?_⟩
  intro r1 r2 r3 h12 h13 h23 k1 k2 k3
  rw [mergeRows]
  have hf : ([[r1, r2], [r2, r3]] : List (List RowRecord)).flatten.filter keepRow
      = [r1, r2, r2, r3] := by
    simp [List.filter, k1, k2, k3]
  rw [hf, dedupRows_eq_keepFirsts]
  rw [keepFirsts, if_neg (by simp)]
  rw [keepFirsts, if_neg (by simp [Ne.symm h12])]
  rw [keepFirsts, if_pos (by simp)]
  rw [keepFirsts, if_neg (by simp [Ne.symm h13, Ne.symm h23])]
  rw [keepFirsts]

/-- C1 witness: the amended order-stability statement at concrete
pairwise-distinct, non-blank records. -/
theorem C1_witness :
    mergeRows [[[("a", "1")], [("a", "2")]], [[("a", "2")], [("a", "3")]]]
      = [[("a", "1")], [("a", "2")], [("a", "3")]] :=
  C1_theorem.2 [("a", "1")] [("a", "2")] [("a", "3")]
    (by decide) (by decide) (by decide) (by decide) (by decide) (by decide)

/-! ## Claim C2: fewer than two input files -/

/-- C2 counterexample.  The claim says every invocation with fewer than two
input file collections fails with status 400; but the server-side handler
checks only for an empty `fileArray`, so a single uploaded file is processed
normally and answered with status 200. -/
theorem C2_counterexample :
    (handler "POST" [some [[("a", "1")]]]).statusCode = 200 ∧
      (handler "POST" [some [[("a", "1")]]]).statusCode ≠ 400 :=
  ⟨by decide, by decide⟩

/-- C2 (amended).  A merge invocation with an **empty** input file list fails
with status 400 (`No files uploaded`) and produces no merged CSV; the ≥ 2
requirement is enforced only client-side, where the combine button refuses to
submit fewer than two selected files. -/
theorem C2_theorem (files : List FileInput) (n : Nat)
    (hf : files = []) (hn : n < 2) :
    handler "POST" files = ⟨400, "No files uploaded"⟩ ∧ combineRejects n = true := by
  subst hf
  exact ⟨rfl, decide_eq_true hn⟩

/-- C2 witness: the amended statement at the empty file list and a
single-file selection count. -/
theorem C2_witness :
    handler "POST" [] = ⟨400, "No files uploaded"⟩ ∧ combineRejects 1 = true :=
  C2_theorem [] 1 rfl (by decide)

/-! ## Claim C6: the blank-row filter -/

lemma keepRow_iff (r : RowRecord) :
    keepRow r = true ↔ ¬(∀ p ∈ r, jsTrim p.2 = "") := by
  rw [keepRow]
  simp only [List.any_eq_true, List.mem_map, decide_eq_true_eq]
  push_neg
  constructor
  · rintro ⟨v, ⟨p, hp, rfl⟩, hv⟩
    exact ⟨p, hp, hv⟩
  · rintro ⟨p, hp, hv⟩
    exact ⟨p.2, ⟨p, hp, rfl⟩, hv⟩

/-- C6.  A record of the concatenated input belongs to the merge result if
and only if not all of its cell values trim to the empty string; equivalently
the blank-row filter drops exactly the records whose every cell is empty or
whitespace-only after trimming, and (since the duplicate filter never removes
the last copy of a record) a blank record is excluded from the result even
when it is the only row of an input file, while every record with at least one
non-blank cell survives the blank filter.  (Papa's header mode yields only
string cells, so the source's `null`/`undefined` guards never fire.) -/
theorem C6_theorem :
    ∀ (colls : List (List RowRecord)) (r : RowRecord),
      r ∈ mergeRows colls ↔ r ∈ colls.flatten ∧ ¬(∀ p ∈ r, jsTrim p.2 = "") := by
  intro colls r
  rw [mergeRows, mem_dedupRows, List.mem_filter, keepRow_iff]

/-- C6 witness: the membership characterisation at a one-file merge whose
only row is whitespace-blank. -/
theorem C6_witness :
    [("a", " ")] ∈ mergeRows [[[("a", " ")]]] ↔
      [("a", " ")] ∈ ([[[("a", " ")]]] : List (List RowRecord)).flatten ∧
        ¬(∀ p ∈ ([("a", " ")] : RowRecord), jsTrim p.2 = "") :=
  C6_theorem [[[("a", " ")]]] [("a", " ")]

/-! ## Claims C3, C4, C9: handler failure and serialization behaviour -/

lemma readAll_of_mem_none (files : List FileInput) (h : none ∈ files) :
    readAll files = .error () := by
  induction files with
  | nil => cases h
  | cons f rest ih =>
    cases f with
    | none => rfl
    | some rows =>
      rw [readAll]
      have hr : none ∈ rest := by
        rcases List.mem_cons.mp h with h1 | h1
        · cases h1
        · exact h1
      rw [ih hr]
      rfl

lemma handler_post_of_ne_nil (files : List FileInput) (h : files ≠ []) :
    handler "POST" files =
      match readAll files with
      | .error _ => ⟨500, "Server error processing CSV files"⟩
      | .ok colls =>
        match json2csvParse (mergeRows colls) with
        | .error _ => ⟨500, "Server error processing CSV files"⟩
        | .ok csv => ⟨200, csv⟩ := by
  rw [handler, if_neg (by simp), if_neg (by simp [h])]

/-- C3 counterexample.  The claim says that when the blank-row filter removes
every row the merge fails with a dedicated `AllRowsEmptyError`, surfaced as an
empty-result condition.  In the code the `json2csv` throw on the empty row
array is swallowed by the generic `catch`: the response is byte-for-byte the
same generic 500 produced by an unrelated file-read failure, so no
empty-result-specific condition is surfaced. -/
theorem C3_counterexample :
    handler "POST" [some [[("a", " ")]]] = handler "POST" [none] ∧
      (handler "POST" [some [[("a", " ")]]]).body
        = "Server error processing CSV files" :=
  ⟨by decide, by decide⟩

/-- C3 (amended).  When the blank-row filter removes every concatenated row,
the serializer throws and the handler answers with the generic
500 `Server error processing CSV files` response: the merge does fail and no
empty CSV file is emitted, but the failure is not distinguished from other
processing failures by any dedicated empty-result error. -/
theorem C3_theorem (files : List FileInput) (colls : List (List RowRecord))
    (h1 : files ≠ []) (h2 : readAll files = .ok colls)
    (h3 : (colls.flatten).filter keepRow = []) :
    handler "POST" files = ⟨500, "Server error processing CSV files"⟩ ∧
      (handler "POST" files).statusCode ≠ 200 := by
  have hm : mergeRows colls = [] := by
    rw [mergeRows, h3]
    rfl
  have h5 : handler "POST" files = ⟨500, "Server error processing CSV files"⟩ := by
    rw [handler_post_of_ne_nil files h1, h2]
    simp [json2csvParse, hm]
  exact ⟨h5, by rw [h5]; decide⟩

/-- C3 witness: the amended statement at a one-file merge whose only row is
whitespace-blank. -/
theorem C3_witness :
    handler "POST" [some [[("a", " ")]]]
        = ⟨500, "Server error processing CSV files"⟩ ∧
      (handler "POST" [some [[("a", " ")]]]).statusCode ≠ 200 :=
  C3_theorem [some [[("a", " ")]]] [[[("a", " ")]]] (by decide) rfl (by decide)

/-- C4 counterexample.  The claim says the engine reports **which** file
failed.  Two invocations whose failing file differs (the second file of the
first invocation, the first and third files of the second) produce identical
responses, and that response is the constant generic message — so the
response cannot identify the failing file. -/
theorem C4_counterexample :
    handler "POST" [some [[("a", "1")]], none]
        = handler "POST" [none, some [[("b", "2")]], none] ∧
      (handler "POST" [some [[("a", "1")]], none]).body
        = "Server error processing CSV files" :=
  ⟨by decide, by decide⟩

/-- C4 (amended).  If reading any single input file fails, the handler aborts
the entire merge and answers with the generic 500 response: no partial union
of the remaining files is returned, but the response does not say which file
failed.  (`Papa.parse` itself never throws, so only the read step can fail.) -/
theorem C4_theorem (files : List FileInput) (h1 : files ≠ []) (h2 : none ∈ files) :
    handler "POST" files = ⟨500, "Server error processing CSV files"⟩ := by
  rw [handler_post_of_ne_nil files h1, readAll_of_mem_none files h2]

/-- C4 witness: the amended statement with the second of two files failing. -/
theorem C4_witness :
    handler "POST" [some [[("a", "1")]], none]
      = ⟨500, "Server error processing CSV files"⟩ :=
  C4_theorem [some [[("a", "1")]], none] (by decide) (by decide)

/-- C9.  Whenever the handler succeeds, the CSV it returns is built from the
column set of the **first surviving record's** keys: the header line lists
exactly `keys r0`, each record contributes one line holding its value at each
of those columns — a column of the header absent from the record renders as an
empty cell (`json2csvCell none = ""`) — and no column outside `keys r0` is
ever consulted, so columns present only in later records do not appear in the
output. -/
theorem C9_theorem (method : String) (files : List FileInput) (csv : String)
    (h : handler method files = ⟨200, csv⟩) :
    ∃ (colls : List (List RowRecord)) (r0 : RowRecord) (rest : List RowRecord),
      readAll files = .ok colls ∧
      mergeRows colls = r0 :: rest ∧
      json2csvFields (mergeRows colls) = keys r0 ∧
      csv = String.intercalate "\n"
        (String.intercalate "," ((keys r0).map json2csvQuote)
          :: (r0 :: rest).map (fun r =>
            String.intercalate ","
              ((keys r0).map (fun c => json2csvCell (lookupCol c r))))) := by
  rw [handler] at h
  split_ifs at h with hm hf
  · simp at h
  · simp at h
  · cases hra : readAll files with
    | error e =>
      rw [hra] at h
      simp at h
    | ok colls =>
      rw [hra] at h
      dsimp only at h
      cases hmr : mergeRows colls with
      | nil =>
        rw [hmr] at h
        simp [json2csvParse] at h
      | cons r0 rest =>
        rw [hmr] at h
        have hp : json2csvParse (r0 :: rest) = .ok (json2csvRender (r0 :: rest)) := by
          simp [json2csvParse]
        rw [hp] at h
        dsimp only at h
        have hb : json2csvRender (r0 :: rest) = csv := congrArg HttpResponse.body h
        refine ⟨colls, r0, rest, rfl, hmr, by rw [hmr]; rfl, ?_⟩
        rw [← hb, json2csvRender]
        rfl

/-- C9 witness: a successful two-file merge, exhibiting the serialized
output built from the first surviving record's keys. -/
theorem C9_witness :
    ∃ (colls : List (List RowRecord)) (r0 : RowRecord) (rest : List RowRecord),
      readAll [some [[("a", "1")]], some [[("a", "2")]]] = .ok colls ∧
      mergeRows colls = r0 :: rest ∧
      json2csvFields (mergeRows colls) = keys r0 ∧
      "\"a\"\n\"1\"\n\"2\"" = String.intercalate "\n"
        (String.intercalate "," ((keys r0).map json2csvQuote)
          :: (r0 :: rest).map (fun r =>
            String.intercalate ","
              ((keys r0).map (fun c => json2csvCell (lookupCol c r))))) :=
  C9_theorem "POST" [some [[("a", "1")]], some [[("a", "2")]]]
    "\"a\"\n\"1\"\n\"2\"" rfl

/-! ## Row Store lemmas -/

lemma mem_keys_cons (p : String × String) (rest : RowRecord) (c : String) :
    c ∈ keys (p :: rest) ↔ p.1 = c ∨ c ∈ keys rest := by
  simp [keys, eq_comm]

lemma lookupCol_replace_self (r : RowRecord) (c v : String) (hc : c ∈ keys r) :
    lookupCol c (r.map (fun p => if p.1 = c then (p.1, v) else p)) = some v := by
  induction r with
  | nil => simp [keys] at hc
  | cons p rest ih =>
    by_cases hp : p.1 = c
    · simp [lookupCol, hp]
    · have hcr : c ∈ keys rest := by
        rcases (mem_keys_cons p rest c).mp hc with h | h
        · exact absurd h hp
        · exact h
      simp [lookupCol, hp, ih hcr]

lemma lookupCol_append_self (r : RowRecord) (c v : String) (hc : c ∉ keys r) :
    lookupCol c (r ++ [(c, v)]) = some v := by
  induction r with
  | nil => simp [lookupCol]
  | cons p rest ih =>
    have hp : p.1 ≠ c := fun h => hc ((mem_keys_cons p rest c).mpr (Or.inl h))
    have hcr : c ∉ keys rest := fun h => hc ((mem_keys_cons p rest c).mpr (Or.inr h))
    simp [lookupCol, hp, ih hcr]

lemma lookupCol_setKey_self (r : RowRecord) (c v : String) :
    lookupCol c (setKey r c v) = some v := by
  rw [setKey]
  split_ifs with hc
  · exact lookupCol_replace_self r c v hc
  · exact lookupCol_append_self r c v hc

lemma lookupCol_replace_ne (r : RowRecord) (c c' v : String) (h : c ≠ c') :
    lookupCol c (r.map (fun p => if p.1 = c' then (p.1, v) else p))
      = lookupCol c r := by
  induction r with
  | nil => rfl
  | cons p rest ih =>
    have hc2 : c' ≠ c := fun hh => h hh.symm
    by_cases hp : p.1 = c'
    · have hpc : p.1 ≠ c := by rw [hp]; exact fun hh => h hh.symm
      simp [lookupCol, hp, hpc, ih, hc2]
    · by_cases hpc : p.1 = c
      · simp [lookupCol, hp, hpc, ih, h]
      · simp [lookupCol, hp, hpc, ih, h]

lemma lookupCol_append_ne (r : RowRecord) (c c' v : String) (h : c ≠ c') :
    lookupCol c (r ++ [(c', v)]) = lookupCol c r := by
  induction r with
  | nil =>
    have : c' ≠ c := fun hh => h hh.symm
    simp [lookupCol, this]
  | cons p rest ih =>
    by_cases hp : p.1 = c <;> simp [lookupCol, hp, ih]

lemma lookupCol_setKey_ne (r : RowRecord) (c c' v : String) (h : c ≠ c') :
    lookupCol c (setKey r c' v) = lookupCol c r := by
  rw [setKey]
  split_ifs with hc
  · exact lookupCol_replace_ne r c c' v h
  · exact lookupCol_append_ne r c c' v h

lemma length_setCell (d : List RowRecord) (ri : Nat) (c v : String) :
    (setCell d ri c v).length = d.length := by
  rw [setCell]
  cases hg : d.get? ri
  · rfl
  · simp

lemma getCell_setCell_self (d : List RowRecord) (ri : Nat) (c v : String)
    (h : ri < d.length) :
    getCell (setCell d ri c v) ri c = some v := by
  obtain ⟨r, hr⟩ : ∃ r, d.get? ri = some r := by
    cases hg : d.get? ri
    · exact absurd (List.get?_eq_none.mp hg) (Nat.not_le_of_lt h)
    · exact ⟨_, rfl⟩
  rw [setCell, hr, getCell, List.get?_set_eq_of_lt _ (by simpa using h)]
  simp [lookupCol_setKey_self r c v]

lemma getCell_setCell_ne (d : List RowRecord) (ri' : Nat) (c' v : String)
    (ri : Nat) (c : String) (h : ¬(ri' = ri ∧ c' = c)) :
    getCell (setCell d ri' c' v) ri c = getCell d ri c := by
  rw [setCell]
  cases hg : d.get? ri' with
  | none => rfl
  | some r =>
    rw [getCell, getCell]
    by_cases hri : ri' = ri
    · subst hri
      have hcc : c ≠ c' := fun hcc => h ⟨rfl, hcc.symm⟩
      rw [List.get?_set_eq_of_lt _ (List.get?_eq_some.mp hg).1, hg]
      simp [lookupCol_setKey_ne r c c' v hcc]
    · rw [List.get?_set_ne _ _ hri]

lemma getCell_setCell (d : List RowRecord) (ri' : Nat) (c' v : String)
    (ri : Nat) (c : String) (h : ri' < d.length) :
    getCell (setCell d ri' c' v) ri c
      = if ri' = ri ∧ c' = c then some v else getCell d ri c := by
  split_ifs with hh
  · obtain ⟨h1, h2⟩ := hh
    subst h1; subst h2
    exact getCell_setCell_self d ri' c' v h
  · exact getCell_setCell_ne d ri' c' v ri c hh

/-- C7.  Each input event writes its value into the store at once
(`getCell` after a single `setCell` returns it), and after any sequence of
write-through edits — any interleaving across `(rowIndex, column)` slots —
reading a slot returns exactly the last value written to that slot, or the
original value when the sequence never wrote it. -/
theorem C7_theorem :
    (∀ (d : List RowRecord) (ri : Nat) (c v : String), ri < d.length →
      getCell (setCell d ri c v) ri c = some v) ∧
    (∀ (d : List RowRecord) (es : List (Nat × String × String)) (ri : Nat)
        (c : String), (∀ e ∈ es, e.1 < d.length) →
      getCell (applyEdits d es) ri c = lastWrite ri c (getCell d ri c) es) := by
  refine ⟨getCell_setCell_self, ?_⟩
  intro d es
  induction es generalizing d with
  | nil => intro ri c _; rfl
  | cons e es ih =>
    intro ri c h
    rw [applyEdits, List.foldl_cons, lastWrite, List.foldl_cons]
    have hd : e.1 < d.length := h e (List.mem_cons_self e es)
    have hrest : ∀ e' ∈ es, e'.1 < (setCell d e.1 e.2.1 e.2.2).length := by
      intro e' he'
      rw [length_setCell]
      exact h e' (List.mem_cons_of_mem e he')
    have := ih (setCell d e.1 e.2.1 e.2.2) ri c hrest
    rw [applyEdits] at this
    rw [this, lastWrite, getCell_setCell d e.1 e.2.1 e.2.2 ri c hd]

/-- C7 witness: an interleaved edit sequence over two rows and two columns;
the slot (0, "a") reads back its last written value "5". -/
theorem C7_witness :
    getCell
      (applyEdits [[("a", "1"), ("b", "2")], [("a", "3"), ("b", "4")]]
        [(0, "a", "9"), (1, "b", "7"), (0, "a", "5"), (1, "a", "6")]) 0 "a"
      = lastWrite 0 "a"
          (getCell [[("a", "1"), ("b", "2")], [("a", "3"), ("b", "4")]] 0 "a")
          [(0, "a", "9"), (1, "b", "7"), (0, "a", "5"), (1, "a", "6")] :=
  C7_theorem.2 [[("a", "1"), ("b", "2")], [("a", "3"), ("b", "4")]]
    [(0, "a", "9"), (1, "b", "7"), (0, "a", "5"), (1, "a", "6")] 0 "a"
    (by decide)

/-! ## Claim C8: toggling a column's edit mode -/

lemma columnDisplay_updateDisplay (data : List RowRecord) (colA colB : String)
    (h : colB ≠ colA) :
    ∀ (k : Nat) (disp : List RowRecord),
      (updateDisplay data colA k disp).map (fun row => lookupCol colB row)
        = disp.map (fun row => lookupCol colB row) := by
  intro k disp
  induction disp generalizing k with
  | nil => rfl
  | cons row rest ih =>
    rw [updateDisplay, List.map_cons, List.map_cons,
      lookupCol_replace_ne row colB colA _ h, ih]

/-- C8.  `toggleModification` never writes `csvData`: toggling any column in
either direction leaves every stored value of every row and every column
unchanged, so in particular enabling then disabling editing on a column
loses or reverts nothing; and toggling column A neither changes whether a
different column B is in editing mode nor the text its cells display. -/
theorem C8_theorem :
    (∀ (s : UIState) (col : String) (chk : Bool),
      (toggleModification s col chk).data = s.data) ∧
    (∀ (s : UIState) (col : String),
      (toggleModification (toggleModification s col true) col false).data
        = s.data) ∧
    (∀ (s : UIState) (colA colB : String) (chk : Bool), colB ≠ colA →
      ((colB ∈ (toggleModification s colA chk).editing ↔ colB ∈ s.editing) ∧
        columnDisplay (toggleModification s colA chk) colB
          = columnDisplay s colB)) := by
  refine ⟨fun s col chk => rfl, fun s col => rfl, ?_⟩
  intro s colA colB chk h
  constructor
  · cases chk with
    | false =>
      show colB ∈ s.editing.erase colA ↔ colB ∈ s.editing
      exact List.mem_erase_of_ne h
    | true =>
      show colB ∈ (if colA ∈ s.editing then s.editing else colA :: s.editing)
        ↔ colB ∈ s.editing
      split_ifs with hmem
      · exact Iff.rfl
      · simp [List.mem_cons, h]
  · rw [columnDisplay, columnDisplay, toggleModification]
    exact columnDisplay_updateDisplay s.data colA colB h 0 s.display

/-- C8 witness: toggling column "a" on a concrete two-column state leaves
column "b"'s edit membership and displayed texts unchanged. -/
theorem C8_witness :
    ("b" ∈ (toggleModification uiStateExample "a" true).editing ↔
        "b" ∈ uiStateExample.editing) ∧
      columnDisplay (toggleModification uiStateExample "a" true) "b"
        = columnDisplay uiStateExample "b" :=
  C8_theorem.2.2 uiStateExample "a" "b" true (by decide)

/-! ## Claim C10: download with no loaded store -/

/-- C10.  When no Row Store is loaded (the in-memory row sequence is empty),
the download click produces no CSV at all: it signals the
`No CSV loaded to download.` condition and leaves the store unchanged. -/
theorem C10_theorem (d : List RowRecord) (h : d = []) :
    downloadClick d = (d, .error "No CSV loaded to download.") := by
  subst h
  rfl

/-- C10 witness: the download click at the empty store. -/
theorem C10_witness :
    downloadClick [] = ([], .error "No CSV loaded to download.") :=
  C10_theorem [] rfl

/-! ## Claim C5: the Papa round-trip -/

lemma readUnquoted_append (f : List Char) :
    ∀ (acc tail : List Char),
      (∀ c ∈ f, ¬(c = ',' ∨ c = '\n' ∨ c = '\r')) →
      (tail = [] ∨ ∃ c r, tail = c :: r ∧ (c = ',' ∨ c = '\n' ∨ c = '\r')) →
      readUnquoted acc (f ++ tail) = (acc ++ f, tail) := by
  induction f with
  | nil =>
    intro acc tail _ htail
    rcases htail with rfl | ⟨c, r, rfl, hc⟩
    · simp [readUnquoted]
    · rw [List.nil_append, readUnquoted, if_pos hc, List.append_nil]
  | cons c f ih =>
    intro acc tail hf htail
    have hc : ¬(c = ',' ∨ c = '\n' ∨ c = '\r') := hf c (List.mem_cons_self c f)
    rw [List.cons_append, readUnquoted, if_neg hc,
      ih (acc ++ [c]) tail (fun x hx => hf x (List.mem_cons_of_mem c hx)) htail]
    simp

lemma readQuoted_append (f : List Char) :
    ∀ (acc tail : List Char), tail.head? ≠ some '"' →
      readQuoted acc (escapeQuotes f ++ '"' :: tail) = some (acc ++ f, tail) := by
  induction f with
  | nil =>
    intro acc tail htail
    rw [escapeQuotes, List.nil_append]
    cases tail with
    | nil => simp [readQuoted]
    | cons c2 cs2 =>
      have hc2 : c2 ≠ '"' := fun h => htail (by rw [h]; rfl)
      simp [readQuoted, hc2]
  | cons c f ih =>
    intro acc tail htail
    by_cases hc : c = '"'
    · subst hc
      rw [escapeQuotes, if_pos rfl, List.cons_append, List.cons_append]
      have step : readQuoted acc ('"' :: '"' :: (escapeQuotes f ++ '"' :: tail))
          = readQuoted (acc ++ ['"']) (escapeQuotes f ++ '"' :: tail) := by
        simp [readQuoted]
      rw [step, ih (acc ++ ['"']) tail htail]
      simp
    · rw [escapeQuotes, if_neg hc, List.cons_append]
      have step : readQuoted acc (c :: (escapeQuotes f ++ '"' :: tail))
          = readQuoted (acc ++ [c]) (escapeQuotes f ++ '"' :: tail) := by
        rw [readQuoted.eq_def]
        simp [hc]
      rw [step, ih (acc ++ [c]) tail htail]
      simp

lemma parseField_render (f : List Char) (tail : List Char)
    (htail : tail = [] ∨ ∃ c r, tail = c :: r ∧ (c = ',' ∨ c = '\n' ∨ c = '\r')) :
    parseField (renderField f ++ tail) = some (f, tail) := by
  have htq : tail.head? ≠ some '"' := by
    rcases htail with rfl | ⟨c, r, rfl, hc⟩
    · simp
    · simp only [List.head?_cons, ne_eq, Option.some.injEq]
      rintro rfl
      rcases hc with h | h | h <;> cases h
  rw [renderField]
  by_cases hq : needsQuotes f
  · rw [if_pos hq, List.cons_append, parseField, if_pos rfl, List.append_assoc]
    exact readQuoted_append f [] tail htq
  · rw [if_neg hq]
    have hfalse : needsQuotes f = false := by
      cases hnq : needsQuotes f
      · rfl
      · exact absurd hnq hq
    have hbad : ∀ c ∈ f, ¬(c = '"' ∨ c = ',' ∨ c = '\r' ∨ c = '\n') := by
      intro c hc hor
      have hany : f.any (fun c => c == '"' || c == ',' || c == '\r' || c == '\n')
          = true := by
        rw [List.any_eq_true]
        exact ⟨c, hc, by rcases hor with h | h | h | h <;> simp [h]⟩
      rw [needsQuotes, hany] at hfalse
      simp at hfalse
    have hstop : ∀ c ∈ f, ¬(c = ',' ∨ c = '\n' ∨ c = '\r') := by
      intro c hc hor
      exact hbad c hc (by tauto)
    cases f with
    | nil =>
      rw [List.nil_append]
      rcases htail with rfl | ⟨c, r, rfl, hc⟩
      · rfl
      · have hcq : c ≠ '"' := by rintro rfl; rcases hc with h | h | h <;> cases h
        rw [parseField, if_neg hcq, readUnquoted, if_pos hc]
    | cons c0 f0 =>
      have hq0 : c0 ≠ '"' := fun h =>
        hbad c0 (List.mem_cons_self c0 f0) (Or.inl h)
      rw [List.cons_append, parseField, if_neg hq0, ← List.cons_append,
        readUnquoted_append (c0 :: f0) [] tail hstop htail]
      simp

lemma renderRecord_length (fs : List (List Char)) :
    fs.length ≤ (renderRecord fs).length + 1 := by
  induction fs with
  | nil => simp [renderRecord]
  | cons f fs ih =>
    cases fs with
    | nil => simp [renderRecord]
    | cons g gs =>
      rw [renderRecord]
      simp only [List.length_cons, List.length_append] at ih ⊢
      omega

lemma parseRecordAux_render_end (fs : List (List Char)) :
    ∀ fuel, fs ≠ [] → fs.length ≤ fuel →
      parseRecordAux fuel (renderRecord fs) = some (fs, []) := by
  induction fs with
  | nil => intro fuel h _; exact absurd rfl h
  | cons f fs ih =>
    intro fuel _ hlen
    obtain ⟨n, rfl⟩ : ∃ n, fuel = n + 1 := by
      cases fuel
      · simp at hlen
      · exact ⟨_, rfl⟩
    cases fs with
    | nil =>
      have hf : parseField (renderField f ++ []) = some (f, []) :=
        parseField_render f [] (Or.inl rfl)
      rw [List.append_nil] at hf
      rw [renderRecord, parseRecordAux, hf]
    | cons g gs =>
      have hf : parseField (renderField f ++ ',' :: renderRecord (g :: gs))
          = some (f, ',' :: renderRecord (g :: gs)) :=
        parseField_render f _ (Or.inr ⟨',', _, rfl, Or.inl rfl⟩)
      rw [renderRecord, parseRecordAux, hf]
      simp only [if_pos rfl]
      rw [ih n (by simp) (by simpa using hlen)]
      simp

lemma parseRecordAux_render_sep (fs : List (List Char)) :
    ∀ (fuel : Nat) (rest0 : List Char), fs ≠ [] → fs.length ≤ fuel →
      parseRecordAux fuel (renderRecord fs ++ '\r' :: '\n' :: rest0)
        = some (fs, rest0) := by
  induction fs with
  | nil => intro fuel rest0 h _; exact absurd rfl h
  | cons f fs ih =>
    intro fuel rest0 _ hlen
    obtain ⟨n, rfl⟩ : ∃ n, fuel = n + 1 := by
      cases fuel
      · simp at hlen
      · exact ⟨_, rfl⟩
    cases fs with
    | nil =>
      have hf : parseField (renderField f ++ '\r' :: '\n' :: rest0)
          = some (f, '\r' :: '\n' :: rest0) :=
        parseField_render f _ (Or.inr ⟨'\r', _, rfl, Or.inr (Or.inr rfl)⟩)
      rw [renderRecord, parseRecordAux, hf]
      simp
    | cons g gs =>
      have hf : parseField
          (renderField f ++ ',' :: (renderRecord (g :: gs) ++ '\r' :: '\n' :: rest0))
          = some (f, ',' :: (renderRecord (g :: gs) ++ '\r' :: '\n' :: rest0)) :=
        parseField_render f _ (Or.inr ⟨',', _, rfl, Or.inl rfl⟩)
      rw [renderRecord, List.append_assoc, List.cons_append, parseRecordAux, hf]
      simp only [if_pos rfl]
      rw [ih n rest0 (by simp) (by simpa using hlen)]
      simp

lemma renderRecord_ne_nil (r : List (List Char)) (h1 : r ≠ []) (h2 : r ≠ [[]]) :
    renderRecord r ≠ [] := by
  cases r with
  | nil => exact absurd rfl h1
  | cons f fs =>
    cases fs with
    | nil =>
      have hf : f ≠ [] := fun hh => h2 (by rw [hh])
      rw [renderRecord, renderField]
      split_ifs with hq
      · simp
      · exact hf
    | cons g gs =>
      rw [renderRecord]
      simp

lemma renderTable_length (t : List (List (List Char))) :
    (∀ r ∈ t, renderRecord r ≠ []) → t.length ≤ (renderTable t).length := by
  induction t with
  | nil => intro _; simp [renderTable]
  | cons r rs ih =>
    intro h
    cases rs with
    | nil =>
      rw [renderTable]
      have hr := h r (List.mem_cons_self r [])
      have hpos : 0 < (renderRecord r).length := List.length_pos.mpr hr
      simpa using hpos
    | cons r2 rs2 =>
      rw [renderTable]
      have h2 := ih (fun x hx => h x (List.mem_cons_of_mem _ hx))
      simp only [List.length_cons, List.length_append] at h2 ⊢
      omega

lemma parseTableAux_render (t : List (List (List Char))) :
    ∀ fuel, t.length < fuel → (∀ r ∈ t, r ≠ []) →
      (∀ r ∈ t, renderRecord r ≠ []) →
      parseTableAux fuel (renderTable t) = some t := by
  induction t with
  | nil =>
    intro fuel hf _ _
    obtain ⟨n, rfl⟩ : ∃ n, fuel = n + 1 := ⟨fuel - 1, by omega⟩
    rfl
  | cons r rs ih =>
    intro fuel hf hne hrr
    obtain ⟨n, rfl⟩ : ∃ n, fuel = n + 1 := ⟨fuel - 1, by omega⟩
    have hrne : renderRecord r ≠ [] := hrr r (List.mem_cons_self r rs)
    have hfne : r ≠ [] := hne r (List.mem_cons_self r rs)
    cases rs with
    | nil =>
      rw [renderTable, parseTableAux,
        if_neg (by simpa [List.isEmpty_iff] using hrne)]
      rw [parseRecordAux_render_end r _ hfne
        (by have h1 := renderRecord_length r; omega)]
      obtain ⟨m, rfl⟩ : ∃ m, n = m + 1 := ⟨n - 1, by simp at hf; omega⟩
      rfl
    | cons r2 rs2 =>
      rw [renderTable, parseTableAux, if_neg (by simp [List.isEmpty_iff])]
      rw [parseRecordAux_render_sep r _ _ hfne
        (by
          simp only [List.length_append, List.length_cons]
          have h1 := renderRecord_length r
          omega)]
      dsimp only
      rw [ih n (by simp at hf ⊢; omega)
        (fun x hx => hne x (List.mem_cons_of_mem _ hx))
        (fun x hx => hrr x (List.mem_cons_of_mem _ hx))]

lemma keys_zip (h : List String) (d : List String) (hl : d.length = h.length) :
    keys (h.zip d) = h := by
  rw [keys, List.map_fst_zip]
  omega

lemma lookupCol_zip (h : List String) :
    ∀ d : List String, h.Nodup → d.length = h.length →
      h.map (fun c => (lookupCol c (h.zip d)).getD "") = d := by
  induction h with
  | nil =>
    intro d _ hl
    cases d
    · rfl
    · simp at hl
  | cons hc hs ih =>
    intro d hnd hl
    cases d with
    | nil => simp at hl
    | cons v vs =>
      rw [List.zip_cons_cons, List.map_cons]
      have hhead : (lookupCol hc ((hc, v) :: hs.zip vs)).getD "" = v := by
        rw [lookupCol, if_pos rfl]
        rfl
      have htail : hs.map (fun c => (lookupCol c ((hc, v) :: hs.zip vs)).getD "")
          = hs.map (fun c => (lookupCol c (hs.zip vs)).getD "") := by
        refine List.map_congr_left (fun c hcmem => ?_)
        have hne : hc ≠ c := fun hh => (List.nodup_cons.mp hnd).1 (hh ▸ hcmem)
        rw [lookupCol, if_neg hne]
      rw [hhead, htail, ih vs (List.nodup_cons.mp hnd).2 (by simpa using hl)]

lemma skipEmpty_eq_self (rows : List (List String))
    (h : ∀ r ∈ rows, r ≠ [""]) : skipEmpty rows = rows := by
  rw [skipEmpty, List.filter_eq_self]
  intro r hr
  simpa using h r hr

lemma skipEmpty_mem_ne (rows : List (List String)) (r : List String)
    (hr : r ∈ skipEmpty rows) : r ≠ [""] := by
  have := List.of_mem_filter hr
  simpa using this

lemma map_data_mk (row : List String) :
    (row.map (fun s => s.data)).map (fun f => String.mk f) = row := by
  rw [List.map_map]
  exact List.map_congr_left (fun s _ => rfl) |>.trans (List.map_id row)

/-- C5.  For every valid CSV text `X` (tokenizable, with a duplicate-free
nonempty header and at least one data row, all rows of header length),
serializing the Row Store obtained by loading the parse of `X` with
`Papa.unparse` yields CSV text that parses back — with the same
`header: true, skipEmptyLines: true` configuration — to exactly the same
records, row for row and column for column. -/
theorem C5_theorem (X : String) (hv : validCsv X = true) :
    papaParse (papaUnparse ((papaParse X).getD [])) = papaParse X := by
  unfold validCsv at hv
  cases hraw : rawTable X with
  | none => rw [hraw] at hv; cases hv
  | some rows =>
    rw [hraw] at hv
    dsimp only at hv
    cases hskip : skipEmpty rows with
    | nil => rw [hskip] at hv; cases hv
    | cons header dataRows =>
      rw [hskip] at hv
      dsimp only at hv
      simp only [Bool.and_eq_true, Bool.not_eq_true', decide_eq_true_eq,
        List.all_eq_true, beq_iff_eq] at hv
      obtain ⟨⟨⟨hhe, hnd⟩, hde⟩, hlen⟩ := hv
      have hheader : header ≠ [] := List.isEmpty_eq_false.mp hhe
      have hpp : papaParse X = some (toRecords (header :: dataRows)) := by
        rw [papaParse, hraw, Option.map_some', hskip]
      cases dataRows with
      | nil => exact absurd rfl (List.isEmpty_eq_false.mp hde)
      | cons d0 ds =>
        -- the loaded records
        have hrec : toRecords (header :: d0 :: ds)
            = (header.zip d0) :: ds.map (fun d => header.zip d) := by
          rw [toRecords, List.map_cons]
        have hlen0 : d0.length = header.length :=
          hlen d0 (List.mem_cons_self d0 ds)
        have hkeys0 : keys (header.zip d0) = header := keys_zip header d0 hlen0
        -- serializing the records rebuilds the original cell matrix
        have hrowchars : ∀ d ∈ d0 :: ds,
            header.map (fun c =>
                ((lookupCol c (header.zip d)).getD "").data)
              = d.map (fun s => s.data) := by
          intro d hd
          have hz := lookupCol_zip header d hnd (hlen d hd)
          calc header.map (fun c => ((lookupCol c (header.zip d)).getD "").data)
              = (header.map (fun c => (lookupCol c (header.zip d)).getD "")).map
                  (fun s => s.data) := by rw [List.map_map]; rfl
            _ = d.map (fun s => s.data) := by rw [hz]
        have htable : ((header.zip d0) :: ds.map (fun d => header.zip d)).map
              (fun r => header.map (fun c => ((lookupCol c r).getD "").data))
            = (d0 :: ds).map (fun row => row.map (fun s => s.data)) := by
          rw [List.map_cons, List.map_cons, List.map_map]
          congr 1
          · exact hrowchars d0 (List.mem_cons_self d0 ds)
          · exact List.map_congr_left fun d hd =>
              hrowchars d (List.mem_cons_of_mem d0 hd)
        have hup : papaUnparse (toRecords (header :: d0 :: ds))
            = String.mk (renderTable
                ((header :: d0 :: ds).map (fun row => row.map (fun s => s.data)))) := by
          rw [hrec, papaUnparse, hkeys0, htable]
          conv_rhs => rw [List.map_cons]
        -- side conditions on the rebuilt matrix
        have hne2 : ∀ rr ∈ header :: d0 :: ds, rr ≠ ([] : List String) := by
          intro rr hrr
          rcases List.mem_cons.mp hrr with rfl | hmem
          · exact hheader
          · have hl := hlen rr hmem
            have hpos : 0 < header.length := List.length_pos.mpr hheader
            intro hnilr
            rw [hnilr] at hl
            simp at hl
            omega
        have hne3 : ∀ rr ∈ header :: d0 :: ds, rr ≠ [""] := by
          intro rr hrr
          apply skipEmpty_mem_ne rows
          rw [hskip]
          exact hrr
        have hchar1 : ∀ rc ∈ (header :: d0 :: ds).map
            (fun row => row.map (fun s => s.data)), rc ≠ [] := by
          intro rc hrc
          obtain ⟨row, hrow, rfl⟩ := List.mem_map.mp hrc
          simpa using hne2 row hrow
        have hchar2 : ∀ rc ∈ (header :: d0 :: ds).map
            (fun row => row.map (fun s => s.data)), renderRecord rc ≠ [] := by
          intro rc hrc
          obtain ⟨row, hrow, rfl⟩ := List.mem_map.mp hrc
          refine renderRecord_ne_nil _ (by simpa using hne2 row hrow) ?_
          intro hbad
          apply hne3 row hrow
          cases row with
          | nil => simp at hbad
          | cons s srest =>
            rw [List.map_cons] at hbad
            have hparts : s.data = ([] : List Char) ∧ srest.map (fun s => s.data) = [] := by
              simpa using hbad
            have hsrest : srest = [] := List.map_eq_nil.mp hparts.2
            subst hsrest
            cases s with
            | mk sdata =>
              have : sdata = [] := hparts.1
              subst this
              rfl
        -- reparse the serialized text
        have hparse2 : parseTableAux
            ((renderTable ((header :: d0 :: ds).map
                (fun row => row.map (fun s => s.data)))).length + 1)
            (renderTable ((header :: d0 :: ds).map
                (fun row => row.map (fun s => s.data))))
            = some ((header :: d0 :: ds).map (fun row => row.map (fun s => s.data))) := by
          refine parseTableAux_render _ _ ?_ hchar1 hchar2
          have := renderTable_length _ hchar2
          omega
        have hrt : rawTable (String.mk (renderTable ((header :: d0 :: ds).map
              (fun row => row.map (fun s => s.data)))))
            = some (header :: d0 :: ds) := by
          rw [rawTable]
          rw [show (String.mk (renderTable ((header :: d0 :: ds).map
              (fun row => row.map (fun s => s.data))))).data
            = renderTable ((header :: d0 :: ds).map
              (fun row => row.map (fun s => s.data))) from rfl]
          rw [hparse2, Option.map_some']
          congr 1
          rw [List.map_map]
          refine (List.map_congr_left fun row _ => map_data_mk row).trans
            (List.map_id _)
        rw [hpp, Option.getD_some, hup, papaParse, hrt, Option.map_some',
          skipEmpty_eq_self _ hne3]

/-- C5 witness: the round-trip at a concrete two-column, two-row CSV text. -/
theorem C5_witness :
    validCsv "name,age\r\nAlice,30\r\nBob,25" = true ∧
      papaParse (papaUnparse
          ((papaParse "name,age\r\nAlice,30\r\nBob,25").getD []))
        = papaParse "name,age\r\nAlice,30\r\nBob,25" :=
  ⟨by decide, C5_theorem "name,age\r\nAlice,30\r\nBob,25" (by decide)⟩

end CsvDrop
